import Mathlib

set_option maxRecDepth 100000
set_option exponentiation.threshold 2000

/-!
Shallow embedding of the MT-SICS balance protocol driver (`MT_SICS.go`).

Bytes are modelled as `Char` (all traffic is ASCII; the zero byte of the
Go read buffer is `Char.ofNat 0`).  The serial connection is modelled as a
`Conn`: a list of outcomes for successive `Write` calls and a list of
`ReadEv` events for successive `Read` calls, each read carrying the elapsed
wall-clock nanoseconds it consumes and either the delivered chunk or an I/O
error.  Machine floats are modelled as exact decimal values (`DecVal`);
`strconv.ParseFloat` and `strconv.FormatFloat` are modelled on the
decimal-literal shapes the driver actually produces and consumes.
-/

/-- The zero byte filling a fresh Go read buffer (`make([]byte, 128)`). -/
def nulChar : Char := Char.ofNat 0

/-- The 128-byte all-zero buffer allocated by `DirectCommand` and `WeightOnKey`. -/
def bufZero : List Char := List.replicate 128 nulChar

/-- `Read` into a fixed buffer: the delivered chunk overwrites the buffer's
head bytes (at most the buffer length), later bytes keep their old value.
The Go code ignores the returned count and always matches the whole buffer. -/
def writeInto (buf chunk : List Char) : List Char :=
  chunk.take buf.length ++ buf.drop (min chunk.length buf.length)

/-- Strip a literal from the head of a byte list (`none` when it does not start
with the literal). -/
def dropLit : List Char → List Char → Option (List Char)
  | [], s => some s
  | _ :: _, [] => none
  | a :: as, b :: bs => if a = b then dropLit as bs else none

/-- Test a predicate on every suffix of a byte list (regex "match anywhere"). -/
def scanHas (p : List Char → Bool) : List Char → Bool
  | [] => p []
  | c :: t => p (c :: t) || scanHas p t

/-- Greedy split at the longest head run satisfying a predicate. -/
def spanCh (p : Char → Bool) : List Char → List Char × List Char
  | [] => ([], [])
  | c :: t =>
    if p c then
      match spanCh p t with
      | (a, b) => (c :: a, b)
    else ([], c :: t)

/-- Matcher for a plain-literal regex such as `A10 A` or `ST A`:
does the byte list contain the literal anywhere? -/
def patLit (lit : List Char) : List Char → Bool :=
  scanHas (fun s => (dropLit lit s).isSome)

/-- Matcher for a regex of shape `<lit>[AL]` (for example `PWR [AL]`):
somewhere in the byte list the literal occurs, followed by one character of
the class. -/
def patLitClass (lit cls : List Char) : List Char → Bool :=
  scanHas (fun s =>
    match dropLit lit s with
    | some (c :: _) => cls.contains c
    | _ => false)

/-- The `-?` atom: an optional leading minus sign, split off the head. -/
def negSplit : List Char → List Char × List Char
  | '-' :: t => (['-'], t)
  | s => ([], s)

/-- Anchored matcher for the measurement-frame regexes
`S S +(-?[0-9]+\.[0-9]+) ([a-zA-Z]+)`, `T S +(...)` and `ST +(...)`:
the literal head `pre`, one or more spaces, an optional minus sign, digits,
a dot, digits, a single space, and letters.  Returns the two capture groups
(value text, unit text).  Greedy matching is exact for these regexes: no
repeated class overlaps the character that must follow it. -/
def matchFrameAt (pre : List Char) (s : List Char) : Option (List Char × List Char) :=
  match dropLit pre s with
  | none => none
  | some s1 =>
    match spanCh (fun c => c = ' ') s1 with
    | (sp, s2) =>
      if sp = [] then none
      else
        match negSplit s2 with
        | (neg, s3) =>
          match spanCh Char.isDigit s3 with
          | (d1, s4) =>
            if d1 = [] then none
            else
              match s4 with
              | '.' :: s5 =>
                match spanCh Char.isDigit s5 with
                | (d2, s6) =>
                  if d2 = [] then none
                  else
                    match s6 with
                    | ' ' :: s7 =>
                      match spanCh Char.isAlpha s7 with
                      | (u, _) =>
                        if u = [] then none
                        else some (neg ++ d1 ++ '.' :: d2, u)
                    | _ => none
              | _ => none

/-- Leftmost match of a measurement-frame regex anywhere in the byte list,
with its capture groups (`regexp.FindStringSubmatch` restricted to these
regexes; `regexp.Match` is its `isSome`). -/
def findFrame (pre : List Char) : List Char → Option (List Char × List Char)
  | [] => matchFrameAt pre []
  | c :: t =>
    match matchFrameAt pre (c :: t) with
    | some r => some r
    | none => findFrame pre t

/-- Value of a most-significant-first digit string. -/
def digitsVal : List Char → Nat
  | [] => 0
  | c :: t => (c.toNat - 48) * 10 ^ t.length + digitsVal t

/-- A `float64` value flowing through the driver, kept as the exact decimal
it was parsed from or will be formatted to: a sign, an integer part, and
`fd` fraction digits of value `fp`.  The driver never computes with its
floats — it only converts them to and from decimal text — so this exact
representation is faithful; the rounding a binary64 would apply is
abstracted away.  The value denoted is
`(-1 if neg) * (ip + fp / 10 ^ fd)`. -/
structure DecVal where
  neg : Bool
  ip : Nat
  fp : Nat
  fd : Nat
deriving DecidableEq

/-- The rational value a `DecVal` denotes. -/
def DecVal.toRat (v : DecVal) : ℚ :=
  (if v.neg then -1 else 1) * ((v.ip : ℚ) + (v.fp : ℚ) / 10 ^ v.fd)

/-- Smallest magnitude whose binary64 rounding is `+Inf`, namely
`2^1024 - 2^970` (a natural number): `strconv.ParseFloat` reports a range
error exactly for magnitudes at or beyond it. -/
def ovfBound : Nat := 2 ^ 1024 - 2 ^ 970

/-- Model of `strconv.ParseFloat(s, 64)` on the plain decimal literals the
driver's capture groups can produce (`-?[0-9]+(\.[0-9]+)?`): the exact
decimal value, or `none` when the text is not such a literal or its
magnitude is out of the binary64 range — the only error cases reachable
here.  The range test `ip + fp/10^fd ≥ ovfBound` is taken at common
denominator `10^fd`. -/
def parseFloat64 (s : List Char) : Option DecVal :=
  match negSplit s with
  | (neg, s1) =>
    match spanCh Char.isDigit s1 with
    | (d1, rest) =>
      if d1 = [] then none
      else
        match rest with
        | [] =>
          if ovfBound ≤ digitsVal d1 then none
          else some ⟨!neg.isEmpty, digitsVal d1, 0, 0⟩
        | '.' :: s2 =>
          match spanCh Char.isDigit s2 with
          | (d2, rest2) =>
            if d2 = [] then none
            else if rest2 ≠ [] then none
            else if ovfBound * 10 ^ d2.length ≤ digitsVal d1 * 10 ^ d2.length + digitsVal d2
              then none
            else some ⟨!neg.isEmpty, digitsVal d1, digitsVal d2, d2.length⟩
        | _ => none

/-- Decimal digit rendering of a natural number below 100, two digits wide. -/
def twoDigits (n : Nat) : String :=
  if n < 10 then "0" ++ Nat.repr n else Nat.repr n

/-- Model of `strconv.FormatFloat(x, 'f', 2, 64)` on a `DecVal`: the
magnitude rounded to two decimal places (nearest, ties to even, as Go's
formatter rounds) and rendered with exactly two fraction digits, with a
leading minus sign for negative values. -/
def fmtF2 (v : DecVal) : String :=
  let a := v.ip * 10 ^ v.fd + v.fp
  let num := a * 100
  let den := 10 ^ v.fd
  let q := num / den
  let r := num % den
  let n := q + (if den < 2 * r then 1 else if 2 * r < den then 0 else q % 2)
  (if v.neg then "-" else "") ++ Nat.repr (n / 100) ++ "." ++ twoDigits (n % 100)

/-!
Transport model and `DirectCommand`.
-/

/-- One `Read` call on the serial connection: the wall-clock nanoseconds the
call takes, and either the chunk of bytes it delivers or an I/O error. -/
structure ReadEv where
  dur : Nat
  data : Option (List Char)
deriving DecidableEq

/-- A serial connection, as seen by the driver: the outcome of each
successive `Write` call (`true` = success; exhausted list = success) and the
event of each successive `Read` call (exhausted list = the read blocks
forever). -/
structure Conn where
  writes : List Bool
  reads : List ReadEv
deriving DecidableEq

/-- Total read-call latency of a connection's remaining read events. -/
def durSum : List ReadEv → Nat
  | [] => 0
  | ev :: rest => ev.dur + durSum rest

/-- The fixed `DirectCommand` deadline: `5 * time.Second` in nanoseconds. -/
def timeoutNs : Nat := 5000000000

/-- Outcome of `DirectCommand`: the matched buffer with no error, the
timeout error (which carries the command sent, the regex text expected and
the final buffer contents, as formatted by the Go error message), an
immediately propagated read or write I/O error, or divergence (a read that
never returns). -/
inductive DCOut where
  | ok (buf : List Char) (elapsed : Nat)
  | timedOut (command patStr : String) (buf : List Char) (elapsed : Nat)
  | readErr (elapsed : Nat)
  | writeErr
  | hang
deriving DecidableEq

/-- Did `DirectCommand` return a match with a nil error? -/
def DCOut.isOk : DCOut → Bool
  | .ok _ _ => true
  | _ => false

/-- Did `DirectCommand` return the timeout error? -/
def DCOut.isTimedOut : DCOut → Bool
  | .timedOut _ _ _ _ => true
  | _ => false

/-- The `DirectCommand` read loop
(`for !match && time.Since(start) < timeout { Read; match = regex.Match(buf) }`):
on each iteration whose entry time is below the deadline, read the next
event; an I/O error returns immediately; otherwise the chunk overwrites the
head of the buffer, the read's latency is added to the elapsed time, and the
whole buffer is matched.  Returns the outcome and the unconsumed reads. -/
def dcLoop (pat : List Char → Bool) (command patStr : String) :
    List ReadEv → List Char → Nat → DCOut × List ReadEv
  | [], buf, elapsed =>
    if elapsed < timeoutNs then (.hang, [])
    else (.timedOut command patStr buf elapsed, [])
  | ev :: rest, buf, elapsed =>
    if elapsed < timeoutNs then
      match ev.data with
      | none => (.readErr elapsed, rest)
      | some chunk =>
        let buf1 := writeInto buf chunk
        let e1 := elapsed + ev.dur
        if pat buf1 then (.ok buf1 e1, rest)
        else dcLoop pat command patStr rest buf1 e1
    else (.timedOut command patStr buf elapsed, ev :: rest)

/-- Result of one driver operation: its outcome, the connection state left
behind, and the byte strings written to the connection, in order. -/
structure OpRes (α : Type) where
  out : α
  conn : Conn
  log : List String
deriving DecidableEq

/-- `DirectCommand(connection, command, regex)`: writes `command + "\r\n"`,
then runs the read loop against a fresh zeroed 128-byte buffer.  `pat` is
the compiled regex's matcher and `patStr` its source text (used in the
timeout error). -/
def directCommand (conn : Conn) (command : String) (pat : List Char → Bool)
    (patStr : String) : OpRes DCOut :=
  let wline := command ++ "\r\n"
  match conn.writes with
  | false :: ws => ⟨.writeErr, ⟨ws, conn.reads⟩, [wline]⟩
  | true :: ws =>
    match dcLoop pat command patStr conn.reads bufZero 0 with
    | (o, rest) => ⟨o, ⟨ws, rest⟩, [wline]⟩
  | [] =>
    match dcLoop pat command patStr conn.reads bufZero 0 with
    | (o, rest) => ⟨o, ⟨[], rest⟩, [wline]⟩

/-!
The driver operations used by the claims.
-/

/-- A weight measurement: `Measurement{Weight float64, Unit string}`,
with the float kept as the exact decimal it was parsed from. -/
structure Measurement where
  weight : DecVal
  unit : String
deriving DecidableEq

/-- `SetTarget`: three `A10` sub-commands (target value, upper tolerance,
lower tolerance), each formatted with two decimals and acknowledged against
the regex `A10 A`; the first failure is returned and ends the sequence.
When `relativeTolerance` holds the tolerance unit becomes `%`. -/
def setTarget (conn : Conn) (target : DecVal) (unit : String)
    (upperTolerance lowerTolerance : DecVal) (relativeTolerance : Bool) : OpRes DCOut :=
  let patA10 := patLit "A10 A".toList
  let r1 := directCommand conn ("A10 0 " ++ fmtF2 target ++ " " ++ unit) patA10 "A10 A"
  if r1.out.isOk = false then ⟨r1.out, r1.conn, r1.log⟩
  else
    let unit1 := if relativeTolerance then "%" else unit
    let r2 := directCommand r1.conn ("A10 1 " ++ fmtF2 upperTolerance ++ " " ++ unit1)
      patA10 "A10 A"
    if r2.out.isOk = false then ⟨r2.out, r2.conn, r1.log ++ r2.log⟩
    else
      let r3 := directCommand r2.conn ("A10 2 " ++ fmtF2 lowerTolerance ++ " " ++ unit1)
        patA10 "A10 A"
      ⟨r3.out, r3.conn, r1.log ++ r2.log ++ r3.log⟩

/-- `PowerOn`: command `PWR 1`, response regex `PWR [AL]`. -/
def powerOn (conn : Conn) : OpRes DCOut :=
  directCommand conn "PWR 1" (patLitClass "PWR ".toList ['A', 'L']) "PWR [AL]"

/-- `PowerOff`: command `PWR 0`, response regex `PWR [AL]`. -/
def powerOff (conn : Conn) : OpRes DCOut :=
  directCommand conn "PWR 0" (patLitClass "PWR ".toList ['A', 'L']) "PWR [AL]"

/-- `CloseAllDoors`: command `WS 0`, response regex `WS [AL]`. -/
def closeAllDoors (conn : Conn) : OpRes DCOut :=
  directCommand conn "WS 0" (patLitClass "WS ".toList ['A', 'L']) "WS [AL]"

/-- `OpenRightDoor`: command `WS 1`, response regex `WS [AL]`. -/
def openRightDoor (conn : Conn) : OpRes DCOut :=
  directCommand conn "WS 1" (patLitClass "WS ".toList ['A', 'L']) "WS [AL]"

/-- `OpenLeftDoor`: command `WS 2`, response regex `WS [AL]`. -/
def openLeftDoor (conn : Conn) : OpRes DCOut :=
  directCommand conn "WS 2" (patLitClass "WS ".toList ['A', 'L']) "WS [AL]"

/-- Outcome of `Weight` and `Tare`: a measurement, a propagated
`DirectCommand` error, a runtime panic from indexing an absent submatch
(`result[1]` on a nil or short `FindStringSubmatch` result), or the
`ParseFloat` error branch. -/
inductive MeasOut where
  | ok (m : Measurement)
  | err (e : DCOut)
  | indexPanic
  | parseErr
deriving DecidableEq

/-- These two `MeasOut` outcomes are the ones that must be unreachable:
the submatch-indexing panic and the `ParseFloat` error branch. -/
def MeasOut.bad : MeasOut → Bool
  | .indexPanic => true
  | .parseErr => true
  | _ => false

/-- `Weight`: command `S`, regex `S S +(-?[0-9]+\.[0-9]+) ([a-zA-Z]+)`;
on success the first capture is parsed as a float and returned with the
second capture as its unit. -/
def weightOp (conn : Conn) : OpRes MeasOut :=
  let r := directCommand conn "S" (fun b => (findFrame "S S".toList b).isSome)
    "S S +(-?[0-9]+\\.[0-9]+) ([a-zA-Z]+)"
  match r.out with
  | .ok buf _ =>
    match findFrame "S S".toList buf with
    | none => ⟨.indexPanic, r.conn, r.log⟩
    | some (v, u) =>
      match parseFloat64 v with
      | none => ⟨.parseErr, r.conn, r.log⟩
      | some q => ⟨.ok ⟨q, String.mk u⟩, r.conn, r.log⟩
  | e => ⟨.err e, r.conn, r.log⟩

/-- `Tare`: command `T`, regex `T S +(-?[0-9]+\.[0-9]+) ([a-zA-Z]+)`;
extraction as in `Weight`. -/
def tareOp (conn : Conn) : OpRes MeasOut :=
  let r := directCommand conn "T" (fun b => (findFrame "T S".toList b).isSome)
    "T S +(-?[0-9]+\\.[0-9]+) ([a-zA-Z]+)"
  match r.out with
  | .ok buf _ =>
    match findFrame "T S".toList buf with
    | none => ⟨.indexPanic, r.conn, r.log⟩
    | some (v, u) =>
      match parseFloat64 v with
      | none => ⟨.parseErr, r.conn, r.log⟩
      | some q => ⟨.ok ⟨q, String.mk u⟩, r.conn, r.log⟩
  | e => ⟨.err e, r.conn, r.log⟩

/-- Outcome of `GetDoorStatus`: the status string, a propagated error, or a
runtime panic from indexing an absent submatch. -/
inductive DoorOut where
  | ok (s : String)
  | err (e : DCOut)
  | indexPanic
deriving DecidableEq

/-- `regexp.FindStringSubmatch` for the regex `WS` (a plain literal with no
capture group): when the text contains `WS` the result is the one-element
list holding the match text, otherwise nil (the empty list). -/
def wsSubmatches (s : List Char) : List String :=
  if patLit "WS".toList s then ["WS"] else []

/-- `GetDoorStatus`, exactly as written in the source: the string
`WS ([0-9])` is passed as the command and the regex is the literal `WS`;
after a successful `DirectCommand` the code indexes element 1 of the
submatch list of regex `WS`, which has no capture group. -/
def getDoorStatus (conn : Conn) : OpRes DoorOut :=
  let r := directCommand conn "WS ([0-9])" (patLit "WS".toList) "WS"
  match r.out with
  | .ok buf _ =>
    match (wsSubmatches buf).get? 1 with
    | none => ⟨.indexPanic, r.conn, r.log⟩
    | some d => ⟨.ok d, r.conn, r.log⟩
  | e => ⟨.err e, r.conn, r.log⟩

/-!
`WeightOnKey` (the streaming acquisition loop).
-/

/-- `math.MaxInt64`, substituted for an infinite (zero) timeout. -/
def maxInt64 : Int := 2 ^ 63 - 1

/-- `int(math.Inf(1))`, substituted for an infinite (zero) measurement
count.  The conversion of `+Inf` to `int` is implementation-specific in Go;
on amd64 it produces `math.MinInt64`. -/
def infAsInt : Int := -(2 ^ 63)

/-- Errors `WeightOnKey` can return (always together with an empty
measurement slice in the source): the both-bounds-infinite configuration
error, a failed `ST 1` start command, a read I/O error inside the loop, or
a `ParseFloat` failure on a matched frame. -/
inductive WErr where
  | confErr
  | startErr (e : DCOut)
  | readErr
  | parseErr
deriving DecidableEq

/-- Outcome of `WeightOnKey`: a returned measurement slice with an optional
error, or divergence (a read that never returns). -/
inductive WOKOut where
  | ret (ms : List Measurement) (e : Option WErr)
  | hang
deriving DecidableEq

/-- The effective timeout bound: `MaxInt64` when the caller passed the
zero sentinel for "infinite", else the caller's value. -/
def effTimeout (timeout : Int) : Int :=
  if timeout = 0 then maxInt64 else timeout

/-- The effective measurement-count bound: `int(math.Inf(1))` when the
caller passed the zero sentinel for "infinite", else the caller's value. -/
def effNum (numMeasurements : Int) : Int :=
  if numMeasurements = 0 then infAsInt else numMeasurements

/-- The `WeightOnKey` acquisition loop
(`for i < numMeasurements && time.Since(start) < timeout`): reads the next
event while both bounds hold; an I/O error or a `ParseFloat` failure
returns an empty slice with the error at once (before the deferred stop is
ever registered); a buffer matching `ST +(-?[0-9]+\.[0-9]+) ([a-zA-Z]+)`
appends a parsed measurement and increments the count.  Returns the outcome
and the unconsumed reads. -/
def wokLoop (num timeout : Int) :
    List ReadEv → List Char → Nat → Nat → List Measurement →
    WOKOut × List ReadEv
  | [], _, elapsed, i, acc =>
    if (i : Int) < num ∧ (elapsed : Int) < timeout then (.hang, [])
    else (.ret acc none, [])
  | ev :: rest, buf, elapsed, i, acc =>
    if (i : Int) < num ∧ (elapsed : Int) < timeout then
      match ev.data with
      | none => (.ret [] (some .readErr), rest)
      | some chunk =>
        let buf1 := writeInto buf chunk
        let e1 := elapsed + ev.dur
        match findFrame "ST".toList buf1 with
        | some (v, u) =>
          match parseFloat64 v with
          | none => (.ret [] (some .parseErr), rest)
          | some q => wokLoop num timeout rest buf1 e1 (i + 1) (acc ++ [⟨q, String.mk u⟩])
        | none => wokLoop num timeout rest buf1 e1 i acc
    else (.ret acc none, ev :: rest)

/-- `WeightOnKey(connection, numMeasurements, timeout)`: rejects the
both-infinite configuration before any write; substitutes `MaxInt64` for a
zero timeout and `int(math.Inf(1))` for a zero count; starts streaming with
`ST 1` (regex `ST A`), runs the acquisition loop, and — only when the loop
finishes normally — performs the deferred `ST 0` stop command (regex
`ST [AL]`), whose own error is discarded.  Error returns from inside the
loop happen before the `defer` statement is reached, so no stop command is
issued on those paths. -/
def weightOnKey (conn : Conn) (numMeasurements : Int) (timeout : Int) : OpRes WOKOut :=
  if timeout = 0 ∧ numMeasurements = 0 then
    ⟨.ret [] (some .confErr), conn, []⟩
  else
    let timeout1 : Int := effTimeout timeout
    let num1 : Int := effNum numMeasurements
    let r1 := directCommand conn "ST 1" (patLit "ST A".toList) "ST A"
    match r1.out with
    | .hang => ⟨.hang, r1.conn, r1.log⟩
    | .ok _ _ =>
      match wokLoop num1 timeout1 r1.conn.reads bufZero 0 0 [] with
      | (.hang, rest) => ⟨.hang, ⟨r1.conn.writes, rest⟩, r1.log⟩
      | (.ret ms (some e), rest) => ⟨.ret ms (some e), ⟨r1.conn.writes, rest⟩, r1.log⟩
      | (.ret ms none, rest) =>
        let r2 := directCommand ⟨r1.conn.writes, rest⟩ "ST 0"
          (patLitClass "ST ".toList ['A', 'L']) "ST [AL]"
        match r2.out with
        | .hang => ⟨.hang, r2.conn, r1.log ++ r2.log⟩
        | _ => ⟨.ret ms none, r2.conn, r1.log ++ r2.log⟩
    | e => ⟨.ret [] (some (.startErr e)), r1.conn, r1.log⟩

/-!
Basic lemmas about the read loop.
-/

theorem writeInto_length (buf chunk : List Char) :
    (writeInto buf chunk).length = buf.length := by
  simp [writeInto]
  omega

theorem dcLoop_ok_inv (pat : List Char → Bool) (command patStr : String) :
    ∀ (reads : List ReadEv) (buf : List Char) (elapsed : Nat) (b : List Char) (e : Nat),
      (dcLoop pat command patStr reads buf elapsed).1 = .ok b e →
      pat b = true ∧ b.length = buf.length
  | [], buf, elapsed, b, e => by
    intro h
    simp only [dcLoop] at h
    split at h <;> simp_all
  | ev :: rest, buf, elapsed, b, e => by
    intro h
    simp only [dcLoop] at h
    split at h
    · match hd : ev.data with
      | none => simp [hd] at h
      | some chunk =>
        simp only [hd] at h
        split at h
        · simp_all
          exact h.1 ▸ writeInto_length buf chunk
        · have := dcLoop_ok_inv pat command patStr rest
            (writeInto buf chunk) (elapsed + ev.dur) b e h
          simpa [writeInto_length] using this
    · simp_all

theorem dcLoop_timedOut_inv (pat : List Char → Bool) (command patStr : String) :
    ∀ (reads : List ReadEv) (buf : List Char) (elapsed : Nat)
      (c p : String) (b : List Char) (e : Nat),
      (dcLoop pat command patStr reads buf elapsed).1 = .timedOut c p b e →
      c = command ∧ p = patStr
  | [], buf, elapsed, c, p, b, e => by
    intro h
    simp only [dcLoop] at h
    split at h <;> simp_all
  | ev :: rest, buf, elapsed, c, p, b, e => by
    intro h
    simp only [dcLoop] at h
    split at h
    · match hd : ev.data with
      | none => simp [hd] at h
      | some chunk =>
        simp only [hd] at h
        split at h
        · simp_all
        · exact dcLoop_timedOut_inv pat command patStr rest
            (writeInto buf chunk) (elapsed + ev.dur) c p b e h
    · simp_all

theorem directCommand_log (conn : Conn) (command : String) (pat : List Char → Bool)
    (patStr : String) :
    (directCommand conn command pat patStr).log = [command ++ "\r\n"] := by
  unfold directCommand
  match h : conn.writes with
  | [] => simp [h]
  | true :: ws => simp [h]
  | false :: ws => simp [h]

theorem directCommand_ok_pat (conn : Conn) (command : String) (pat : List Char → Bool)
    (patStr : String) (b : List Char) (e : Nat)
    (h : (directCommand conn command pat patStr).out = .ok b e) :
    pat b = true ∧ b.length = 128 := by
  unfold directCommand at h
  match hw : conn.writes with
  | [] =>
    simp only [hw] at h
    have := dcLoop_ok_inv pat command patStr conn.reads bufZero 0 b e
    simp_all [bufZero]
  | true :: ws =>
    simp only [hw] at h
    have := dcLoop_ok_inv pat command patStr conn.reads bufZero 0 b e
    simp_all [bufZero]
  | false :: ws => simp [hw] at h

theorem directCommand_timedOut_cmd (conn : Conn) (command : String)
    (pat : List Char → Bool) (patStr : String) (c p : String) (b : List Char) (e : Nat)
    (h : (directCommand conn command pat patStr).out = .timedOut c p b e) :
    c = command ∧ p = patStr := by
  unfold directCommand at h
  match hw : conn.writes with
  | [] =>
    simp only [hw] at h
    exact dcLoop_timedOut_inv pat command patStr conn.reads bufZero 0 c p b e (by simp_all)
  | true :: ws =>
    simp only [hw] at h
    exact dcLoop_timedOut_inv pat command patStr conn.reads bufZero 0 c p b e (by simp_all)
  | false :: ws => simp [hw] at h

/-!
Claim C1: buffer accumulation across reads in `DirectCommand`.
-/

/-- A connection whose two successful reads deliver a stable-weight response
split in half: first `S S 12.`, then `34 g\r\n`, each read taking three of
the five allowed seconds. -/
def connSplit : Conn :=
  ⟨[true], [⟨3000000000, some "S S 12.".toList⟩, ⟨3000000000, some "34 g\r\n".toList⟩]⟩

/-- The matcher and source text of the `Weight` response regex. -/
def patWeightS : List Char → Bool := fun b => (findFrame "S S".toList b).isSome

/-- C1: refuted on the code.  `DirectCommand` does not accumulate reads: each
`Read` overwrites the head of the one fixed 128-byte buffer, so a response
split across two reads is lost even though the concatenation of the two
chunks matches the pattern, and the call ends in the timeout error instead
of a match. -/
theorem dc_split_response_lost :
    (directCommand connSplit "S" patWeightS
        "S S +(-?[0-9]+\\.[0-9]+) ([a-zA-Z]+)").out.isTimedOut = true
    ∧ (directCommand connSplit "S" patWeightS
        "S S +(-?[0-9]+\\.[0-9]+) ([a-zA-Z]+)").out.isOk = false
    ∧ patWeightS ("S S 12.".toList ++ "34 g\r\n".toList) = true := by
  refine ⟨by decide, by decide, by decide⟩

/-!
Claim C2: the stop command on error exit paths of `WeightOnKey`.
-/

/-- A connection that acknowledges the `ST 1` start command and then fails
the first read of the acquisition loop with an I/O error.  Further writes
would succeed. -/
def connStopLost : Conn :=
  ⟨[true, true], [⟨1, some "ST A".toList⟩, ⟨1, none⟩]⟩

/-- C2: refuted on the code.  When a transport read fails inside the
acquisition loop, `WeightOnKey` returns that error having written only the
start command `ST 1`: the deferred `ST 0` stop is registered only after the
loop, so the error return paths inside the loop never issue it. -/
theorem wok_stop_skipped_on_read_error :
    weightOnKey connStopLost 3 0 =
      ⟨.ret [] (some .readErr), ⟨[true], []⟩, ["ST 1\r\n"]⟩ := by
  decide

/-!
Claim C3: `GetDoorStatus` on a `WS <digit>` reply.
-/

/-- A connection replying `WS 3` (right and top doors open, per the status
table) to whatever is asked. -/
def connDoor : Conn := ⟨[true], [⟨1, some "WS 3".toList⟩]⟩

/-- C3: refuted on the code.  `GetDoorStatus` passes its arguments swapped:
the literal text `WS ([0-9])` is sent as the command and the reply is
matched against the regex `WS`, which has no capture group — so on any
matching reply, `result[1]` indexes past the one-element submatch list and
the call panics instead of returning the digit. -/
theorem getDoorStatus_panics :
    getDoorStatus connDoor = ⟨.indexPanic, ⟨[], []⟩, ["WS ([0-9])\r\n"]⟩ := by
  decide

/-!
Claim C4: rejection of the doubly-unbounded streaming configuration.
-/

/-- C4: confirmed.  With both the measurement count and the timeout zero
(infinite), `WeightOnKey` fails at once with the configuration error: the
connection is untouched and nothing is written — in particular no start
command. -/
theorem wok_unbounded_rejected (conn : Conn) :
    weightOnKey conn 0 0 = ⟨.ret [] (some .confErr), conn, []⟩ := by
  rfl

/-!
Claim C8: the toggle operations and the `[AL]` acknowledgement class.
-/

theorem dc_singleRead_isOk (command : String) (pat : List Char → Bool) (patStr : String)
    (reply : List Char) :
    (directCommand ⟨[true], [⟨timeoutNs, some reply⟩]⟩ command pat patStr).out.isOk
      = pat (writeInto bufZero reply) := by
  simp only [directCommand, dcLoop]
  cases h : pat (writeInto bufZero reply)
  · simp [dcLoop, h, timeoutNs, DCOut.isOk]
  · simp [h, timeoutNs, DCOut.isOk]

/-- The single-read connection used to probe an operation with one reply. -/
def replyConn (reply : List Char) : Conn := ⟨[true], [⟨timeoutNs, some reply⟩]⟩

/-- C8: confirmed.  For each toggle operation — `PowerOn`, `PowerOff`,
`CloseAllDoors`, `OpenRightDoor`, `OpenLeftDoor` — the call succeeds on a
one-reply connection exactly when the 128-byte read buffer holding the
reply matches the operation's `[AL]` class regex (`PWR [AL]` or `WS [AL]`),
i.e. contains the verb followed by the acknowledgement letter `A` or the
logical no-op letter `L`; concretely, the `A` and `L` replies are accepted
with no error and a deviating letter such as `I` is not a match (the call
times out instead). -/
theorem toggles_accept_AL :
    ((∀ reply : List Char, (powerOn (replyConn reply)).out.isOk
        = patLitClass "PWR ".toList ['A', 'L'] (writeInto bufZero reply))
      ∧ (∀ reply : List Char, (powerOff (replyConn reply)).out.isOk
        = patLitClass "PWR ".toList ['A', 'L'] (writeInto bufZero reply))
      ∧ (∀ reply : List Char, (closeAllDoors (replyConn reply)).out.isOk
        = patLitClass "WS ".toList ['A', 'L'] (writeInto bufZero reply))
      ∧ (∀ reply : List Char, (openRightDoor (replyConn reply)).out.isOk
        = patLitClass "WS ".toList ['A', 'L'] (writeInto bufZero reply))
      ∧ (∀ reply : List Char, (openLeftDoor (replyConn reply)).out.isOk
        = patLitClass "WS ".toList ['A', 'L'] (writeInto bufZero reply)))
    ∧ ((powerOn (replyConn "PWR A".toList)).out.isOk = true
      ∧ (powerOn (replyConn "PWR L".toList)).out.isOk = true
      ∧ (powerOn (replyConn "PWR I".toList)).out.isTimedOut = true
      ∧ (powerOff (replyConn "PWR A".toList)).out.isOk = true
      ∧ (powerOff (replyConn "PWR L".toList)).out.isOk = true
      ∧ (powerOff (replyConn "PWR I".toList)).out.isTimedOut = true
      ∧ (closeAllDoors (replyConn "WS A".toList)).out.isOk = true
      ∧ (closeAllDoors (replyConn "WS L".toList)).out.isOk = true
      ∧ (closeAllDoors (replyConn "WS I".toList)).out.isTimedOut = true
      ∧ (openRightDoor (replyConn "WS A".toList)).out.isOk = true
      ∧ (openRightDoor (replyConn "WS L".toList)).out.isOk = true
      ∧ (openRightDoor (replyConn "WS I".toList)).out.isTimedOut = true
      ∧ (openLeftDoor (replyConn "WS A".toList)).out.isOk = true
      ∧ (openLeftDoor (replyConn "WS L".toList)).out.isOk = true
      ∧ (openLeftDoor (replyConn "WS I".toList)).out.isTimedOut = true) := by
  constructor
  · exact ⟨fun r => dc_singleRead_isOk _ _ _ r, fun r => dc_singleRead_isOk _ _ _ r,
      fun r => dc_singleRead_isOk _ _ _ r, fun r => dc_singleRead_isOk _ _ _ r,
      fun r => dc_singleRead_isOk _ _ _ r⟩
  · refine ⟨by decide, by decide, by decide, by decide, by decide, by decide, by decide,
      by decide, by decide, by decide, by decide, by decide, by decide, by decide, by decide⟩


/-!
Claim C6: the three `SetTarget` sub-commands.
-/

theorem setTarget_eq1 (conn : Conn) (t : DecVal) (u : String) (up lo : DecVal) (rel : Bool)
    (h1 : (directCommand conn ("A10 0 " ++ fmtF2 t ++ " " ++ u)
      (patLit "A10 A".toList) "A10 A").out.isOk = false) :
    setTarget conn t u up lo rel =
      ⟨(directCommand conn ("A10 0 " ++ fmtF2 t ++ " " ++ u)
          (patLit "A10 A".toList) "A10 A").out,
       (directCommand conn ("A10 0 " ++ fmtF2 t ++ " " ++ u)
          (patLit "A10 A".toList) "A10 A").conn,
       ["A10 0 " ++ fmtF2 t ++ " " ++ u ++ "\r\n"]⟩ := by
  simp only [setTarget]
  rw [if_pos h1, directCommand_log]

theorem setTarget_eq2 (conn : Conn) (t : DecVal) (u : String) (up lo : DecVal) (rel : Bool)
    (h1 : ¬ (directCommand conn ("A10 0 " ++ fmtF2 t ++ " " ++ u)
      (patLit "A10 A".toList) "A10 A").out.isOk = false)
    (h2 : (directCommand
        (directCommand conn ("A10 0 " ++ fmtF2 t ++ " " ++ u)
          (patLit "A10 A".toList) "A10 A").conn
        ("A10 1 " ++ fmtF2 up ++ " " ++ (if rel then "%" else u))
        (patLit "A10 A".toList) "A10 A").out.isOk = false) :
    setTarget conn t u up lo rel =
      ⟨(directCommand
          (directCommand conn ("A10 0 " ++ fmtF2 t ++ " " ++ u)
            (patLit "A10 A".toList) "A10 A").conn
          ("A10 1 " ++ fmtF2 up ++ " " ++ (if rel then "%" else u))
          (patLit "A10 A".toList) "A10 A").out,
       (directCommand
          (directCommand conn ("A10 0 " ++ fmtF2 t ++ " " ++ u)
            (patLit "A10 A".toList) "A10 A").conn
          ("A10 1 " ++ fmtF2 up ++ " " ++ (if rel then "%" else u))
          (patLit "A10 A".toList) "A10 A").conn,
       ["A10 0 " ++ fmtF2 t ++ " " ++ u ++ "\r\n",
        "A10 1 " ++ fmtF2 up ++ " " ++ (if rel then "%" else u) ++ "\r\n"]⟩ := by
  simp only [setTarget]
  rw [if_neg h1, if_pos h2, directCommand_log, directCommand_log]
  rfl

theorem setTarget_eq3 (conn : Conn) (t : DecVal) (u : String) (up lo : DecVal) (rel : Bool)
    (h1 : ¬ (directCommand conn ("A10 0 " ++ fmtF2 t ++ " " ++ u)
      (patLit "A10 A".toList) "A10 A").out.isOk = false)
    (h2 : ¬ (directCommand
        (directCommand conn ("A10 0 " ++ fmtF2 t ++ " " ++ u)
          (patLit "A10 A".toList) "A10 A").conn
        ("A10 1 " ++ fmtF2 up ++ " " ++ (if rel then "%" else u))
        (patLit "A10 A".toList) "A10 A").out.isOk = false) :
    setTarget conn t u up lo rel =
      ⟨(directCommand
          (directCommand
            (directCommand conn ("A10 0 " ++ fmtF2 t ++ " " ++ u)
              (patLit "A10 A".toList) "A10 A").conn
            ("A10 1 " ++ fmtF2 up ++ " " ++ (if rel then "%" else u))
            (patLit "A10 A".toList) "A10 A").conn
          ("A10 2 " ++ fmtF2 lo ++ " " ++ (if rel then "%" else u))
          (patLit "A10 A".toList) "A10 A").out,
       (directCommand
          (directCommand
            (directCommand conn ("A10 0 " ++ fmtF2 t ++ " " ++ u)
              (patLit "A10 A".toList) "A10 A").conn
            ("A10 1 " ++ fmtF2 up ++ " " ++ (if rel then "%" else u))
            (patLit "A10 A".toList) "A10 A").conn
          ("A10 2 " ++ fmtF2 lo ++ " " ++ (if rel then "%" else u))
          (patLit "A10 A".toList) "A10 A").conn,
       ["A10 0 " ++ fmtF2 t ++ " " ++ u ++ "\r\n",
        "A10 1 " ++ fmtF2 up ++ " " ++ (if rel then "%" else u) ++ "\r\n",
        "A10 2 " ++ fmtF2 lo ++ " " ++ (if rel then "%" else u) ++ "\r\n"]⟩ := by
  simp only [setTarget]
  rw [if_neg h1, if_neg h2, directCommand_log, directCommand_log, directCommand_log]
  rfl

theorem setTarget_log_cases (conn : Conn) (t : DecVal) (u : String) (up lo : DecVal)
    (rel : Bool) :
    ((setTarget conn t u up lo rel).log = ["A10 0 " ++ fmtF2 t ++ " " ++ u ++ "\r\n"]
      ∨ (setTarget conn t u up lo rel).log
        = ["A10 0 " ++ fmtF2 t ++ " " ++ u ++ "\r\n",
           "A10 1 " ++ fmtF2 up ++ " " ++ (if rel then "%" else u) ++ "\r\n"]
      ∨ (setTarget conn t u up lo rel).log
        = ["A10 0 " ++ fmtF2 t ++ " " ++ u ++ "\r\n",
           "A10 1 " ++ fmtF2 up ++ " " ++ (if rel then "%" else u) ++ "\r\n",
           "A10 2 " ++ fmtF2 lo ++ " " ++ (if rel then "%" else u) ++ "\r\n"])
    ∧ ((setTarget conn t u up lo rel).out.isOk = true →
        (setTarget conn t u up lo rel).log
          = ["A10 0 " ++ fmtF2 t ++ " " ++ u ++ "\r\n",
             "A10 1 " ++ fmtF2 up ++ " " ++ (if rel then "%" else u) ++ "\r\n",
             "A10 2 " ++ fmtF2 lo ++ " " ++ (if rel then "%" else u) ++ "\r\n"])
    ∧ (∀ (c p : String) (b : List Char) (e : Nat),
        (setTarget conn t u up lo rel).out = .timedOut c p b e →
        (setTarget conn t u up lo rel).log.getLast? = some (c ++ "\r\n")) := by
  by_cases h1 : (directCommand conn ("A10 0 " ++ fmtF2 t ++ " " ++ u)
      (patLit "A10 A".toList) "A10 A").out.isOk = false
  · rw [setTarget_eq1 conn t u up lo rel h1]
    refine ⟨Or.inl rfl, ?_, ?_⟩
    · intro hOk
      simp only [h1] at hOk
      cases hOk
    · intro c p b e he
      have hc := (directCommand_timedOut_cmd conn _ _ _ c p b e he).1
      simp [hc]
  · by_cases h2 : (directCommand
        (directCommand conn ("A10 0 " ++ fmtF2 t ++ " " ++ u)
          (patLit "A10 A".toList) "A10 A").conn
        ("A10 1 " ++ fmtF2 up ++ " " ++ (if rel then "%" else u))
        (patLit "A10 A".toList) "A10 A").out.isOk = false
    · rw [setTarget_eq2 conn t u up lo rel h1 h2]
      refine ⟨Or.inr (Or.inl rfl), ?_, ?_⟩
      · intro hOk
        simp only [h2] at hOk
        cases hOk
      · intro c p b e he
        have hc := (directCommand_timedOut_cmd _ _ _ _ c p b e he).1
        simp [hc]
    · rw [setTarget_eq3 conn t u up lo rel h1 h2]
      refine ⟨Or.inr (Or.inr rfl), fun _ => rfl, ?_⟩
      · intro c p b e he
        have hc := (directCommand_timedOut_cmd _ _ _ _ c p b e he).1
        simp [hc]

/-- A connection acknowledging all three `A10` sub-commands. -/
def connTarget : Conn :=
  ⟨[true, true, true],
   [⟨1, some "A10 A".toList⟩, ⟨1, some "A10 A".toList⟩, ⟨1, some "A10 A".toList⟩]⟩

/-- C6: confirmed.  `SetTarget(12.5, "g", 0.1, 0.2, relative = false)`
against an acknowledging device succeeds and writes exactly the three
commands `A10 0 12.50 g`, `A10 1 0.10 g`, `A10 2 0.20 g`, in this order,
each acknowledged as its own `DirectCommand` against the regex `A10 A`; and
against an arbitrary connection the write log is always a non-empty prefix
of those three commands, success requires all three, and when a sub-command
times out the returned error names exactly the last command written — so no
further sub-command is sent once one fails. -/
theorem setTarget_three_commands :
    ((setTarget connTarget ⟨false, 12, 5, 1⟩ "g" ⟨false, 0, 1, 1⟩ ⟨false, 0, 2, 1⟩
        false).out.isOk = true
      ∧ (setTarget connTarget ⟨false, 12, 5, 1⟩ "g" ⟨false, 0, 1, 1⟩ ⟨false, 0, 2, 1⟩
          false).log
        = ["A10 0 12.50 g\r\n", "A10 1 0.10 g\r\n", "A10 2 0.20 g\r\n"])
    ∧ ∀ conn : Conn,
        ((setTarget conn ⟨false, 12, 5, 1⟩ "g" ⟨false, 0, 1, 1⟩ ⟨false, 0, 2, 1⟩ false).log
            = ["A10 0 12.50 g\r\n"]
          ∨ (setTarget conn ⟨false, 12, 5, 1⟩ "g" ⟨false, 0, 1, 1⟩ ⟨false, 0, 2, 1⟩ false).log
            = ["A10 0 12.50 g\r\n", "A10 1 0.10 g\r\n"]
          ∨ (setTarget conn ⟨false, 12, 5, 1⟩ "g" ⟨false, 0, 1, 1⟩ ⟨false, 0, 2, 1⟩ false).log
            = ["A10 0 12.50 g\r\n", "A10 1 0.10 g\r\n", "A10 2 0.20 g\r\n"])
        ∧ ((setTarget conn ⟨false, 12, 5, 1⟩ "g" ⟨false, 0, 1, 1⟩ ⟨false, 0, 2, 1⟩
              false).out.isOk = true →
            (setTarget conn ⟨false, 12, 5, 1⟩ "g" ⟨false, 0, 1, 1⟩ ⟨false, 0, 2, 1⟩ false).log
              = ["A10 0 12.50 g\r\n", "A10 1 0.10 g\r\n", "A10 2 0.20 g\r\n"])
        ∧ (∀ (c p : String) (b : List Char) (e : Nat),
            (setTarget conn ⟨false, 12, 5, 1⟩ "g" ⟨false, 0, 1, 1⟩ ⟨false, 0, 2, 1⟩
              false).out = .timedOut c p b e →
            (setTarget conn ⟨false, 12, 5, 1⟩ "g" ⟨false, 0, 1, 1⟩ ⟨false, 0, 2, 1⟩
              false).log.getLast? = some (c ++ "\r\n")) := by
  constructor
  · exact ⟨by decide, by decide⟩
  · intro conn
    have h := setTarget_log_cases conn ⟨false, 12, 5, 1⟩ "g" ⟨false, 0, 1, 1⟩
      ⟨false, 0, 2, 1⟩ false
    have hf1 : fmtF2 ⟨false, 12, 5, 1⟩ = "12.50" := by decide
    have hf2 : fmtF2 ⟨false, 0, 1, 1⟩ = "0.10" := by decide
    have hf3 : fmtF2 ⟨false, 0, 2, 1⟩ = "0.20" := by decide
    simp only [hf1, hf2, hf3, reduceIte, String.reduceAppend] at h
    exact h

/-- A connection that acknowledges the first `A10` sub-command and then goes
silent: the single read for the second sub-command exhausts the deadline
without matching, so the second `DirectCommand` times out. -/
def connTargetBad : Conn :=
  ⟨[true, true], [⟨1, some "A10 A".toList⟩, ⟨5000000000, some "x".toList⟩]⟩

/-- Witness for C6: at the connection where the second sub-command times
out, the theorem's hypotheses are discharged concretely and yield that the
last — and therefore final — command written is `A10 1 0.10 g`. -/
theorem setTarget_three_commands_witness :
    (setTarget connTargetBad ⟨false, 12, 5, 1⟩ "g" ⟨false, 0, 1, 1⟩ ⟨false, 0, 2, 1⟩
      false).log.getLast? = some ("A10 1 0.10 g" ++ "\r\n") :=
  (setTarget_three_commands.2 connTargetBad).2.2 "A10 1 0.10 g" "A10 A"
    ('x' :: List.replicate 127 nulChar) 5000000000 (by decide)

/-!
Claim C10: an error from `WeightOnKey` always comes with an empty slice.
-/

/-- Does a `WeightOnKey` outcome pair an error with a non-empty measurement
list?  The claim is that this never happens. -/
def WOKOut.errNonempty : WOKOut → Bool
  | .ret ms (some _) => !ms.isEmpty
  | _ => false

theorem wokLoop_err_empty (num T : Int) :
    ∀ (reads : List ReadEv) (buf : List Char) (elapsed i : Nat) (acc ms : List Measurement)
      (e : WErr) (rest : List ReadEv),
      wokLoop num T reads buf elapsed i acc = (.ret ms (some e), rest) → ms = []
  | [], buf, elapsed, i, acc, ms, e, rest => by
    intro h
    simp only [wokLoop] at h
    split at h <;> simp_all
  | ev :: tl, buf, elapsed, i, acc, ms, e, rest => by
    intro h
    simp only [wokLoop] at h
    split at h
    · match hd : ev.data with
      | none =>
        simp only [hd] at h
        simp_all
      | some chunk =>
        simp only [hd] at h
        split at h
        · split at h
          · simp_all
          · exact wokLoop_err_empty num T tl _ _ _ _ ms e rest h
        · exact wokLoop_err_empty num T tl _ _ _ _ ms e rest h
    · simp_all

/-- C10: confirmed.  Whenever `WeightOnKey` returns an error — the
configuration error, a failed start command, a read I/O error, or a frame
parse failure — the measurement slice it returns is empty: every error
return site in the source builds `[]Measurement{}`, discarding anything
collected before the error. -/
theorem wok_errors_empty (conn : Conn) (num timeout : Int) :
    (weightOnKey conn num timeout).out.errNonempty = false := by
  unfold weightOnKey
  split
  · rfl
  · dsimp only
    split
    · rfl
    · split
      · rfl
      · rename_i ms e rest hw
        have := wokLoop_err_empty _ _ _ _ _ _ _ ms e rest hw
        subst this
        rfl
      · split <;> rfl
    · rfl

/-!
Claim C5: termination and outcome trichotomy of `DirectCommand`.
-/

theorem dcLoop_deadline (pat : List Char → Bool) (cmd ps : String)
    (reads : List ReadEv) (buf : List Char) (elapsed : Nat)
    (h : ¬ elapsed < timeoutNs) :
    (dcLoop pat cmd ps reads buf elapsed).1 = .timedOut cmd ps buf elapsed := by
  cases reads <;> simp [dcLoop, h]

theorem dcLoop_total (pat : List Char → Bool) (cmd ps : String) (D : Nat) :
    ∀ (reads : List ReadEv) (buf : List Char) (elapsed : Nat),
      (∀ ev ∈ reads, ev.dur ≤ D) → elapsed < timeoutNs →
      timeoutNs ≤ elapsed + durSum reads →
      ((∃ b e, (dcLoop pat cmd ps reads buf elapsed).1 = .ok b e
          ∧ pat b = true ∧ e < timeoutNs + D)
        ∨ (∃ b e, (dcLoop pat cmd ps reads buf elapsed).1 = .timedOut cmd ps b e
          ∧ pat b = false ∧ e < timeoutNs + D)
        ∨ (∃ e, (dcLoop pat cmd ps reads buf elapsed).1 = .readErr e))
  | [], buf, elapsed => by
    intro h1 h2 h3
    simp [durSum] at h3
    omega
  | ev :: tl, buf, elapsed => by
    intro h1 h2 h3
    simp only [dcLoop, if_pos h2]
    match hd : ev.data with
    | none =>
      exact Or.inr (Or.inr ⟨elapsed, by simp⟩)
    | some chunk =>
      simp only []
      by_cases hp : pat (writeInto buf chunk) = true
      · refine Or.inl ⟨writeInto buf chunk, elapsed + ev.dur, by simp [hp], hp, ?_⟩
        have := h1 ev (by simp)
        omega
      · rw [Bool.not_eq_true] at hp
        simp only [hp, Bool.false_eq_true, if_false]
        by_cases he : elapsed + ev.dur < timeoutNs
        · exact dcLoop_total pat cmd ps D tl (writeInto buf chunk) (elapsed + ev.dur)
            (fun e he' => h1 e (by simp [he'])) he
            (by simp only [durSum] at h3 ⊢; omega)
        · have hdl := dcLoop_deadline pat cmd ps tl (writeInto buf chunk)
            (elapsed + ev.dur) he
          refine Or.inr (Or.inl ⟨writeInto buf chunk, elapsed + ev.dur, hdl, hp, ?_⟩)
          have := h1 ev (by simp)
          omega

/-- A connection whose first read fails with an I/O error: `DirectCommand`
then returns that error — neither a pattern match nor the timeout error. -/
def connReadFail : Conn := ⟨[true], [⟨1, none⟩]⟩

/-- Counterexample to C5 as stated: the claimed outcome dichotomy
("matching bytes with no error, or a timeout error") is not exhaustive — on
a connection whose read fails, `DirectCommand` terminates but returns the
transport's I/O error, which is neither of the two. -/
theorem dc_dichotomy_cex :
    (directCommand connReadFail "S" patWeightS
        "S S +(-?[0-9]+\\.[0-9]+) ([a-zA-Z]+)").out = .readErr 0
    ∧ (directCommand connReadFail "S" patWeightS
        "S S +(-?[0-9]+\\.[0-9]+) ([a-zA-Z]+)").out.isOk = false
    ∧ (directCommand connReadFail "S" patWeightS
        "S S +(-?[0-9]+\\.[0-9]+) ([a-zA-Z]+)").out.isTimedOut = false := by
  refine ⟨by decide, by decide, by decide⟩

/-- C5, amended: on a connection whose reads each return within `D`
nanoseconds and whose available reads cover the 5-second deadline,
`DirectCommand` never hangs: it returns with elapsed time below
`timeout + D` (the deadline plus at most one read's latency), and its
outcome is one of (i) buffer matching the pattern with no error, (ii) the
timeout error carrying the command sent, the expected pattern text and the
final buffer, or (iii) an immediately propagated read or write I/O error —
the last disjunct being the case the original claim omitted. -/
theorem dc_terminates (conn : Conn) (command patStr : String) (pat : List Char → Bool)
    (D : Nat) (hD : ∀ ev ∈ conn.reads, ev.dur ≤ D)
    (hcover : timeoutNs ≤ durSum conn.reads) :
    (∃ b e, (directCommand conn command pat patStr).out = .ok b e
      ∧ pat b = true ∧ e < timeoutNs + D)
    ∨ (∃ b e, (directCommand conn command pat patStr).out = .timedOut command patStr b e
      ∧ pat b = false ∧ e < timeoutNs + D)
    ∨ (∃ e, (directCommand conn command pat patStr).out = .readErr e)
    ∨ (directCommand conn command pat patStr).out = .writeErr := by
  have hloop := dcLoop_total pat command patStr D conn.reads bufZero 0 hD
    (by decide) (by simpa using hcover)
  unfold directCommand
  match hw : conn.writes with
  | [] =>
    rcases hloop with ⟨b, e, hh, hp, hb⟩ | ⟨b, e, hh, hp, hb⟩ | ⟨e, hh⟩
    · exact Or.inl ⟨b, e, by simp [hh], hp, hb⟩
    · exact Or.inr (Or.inl ⟨b, e, by simp [hh], hp, hb⟩)
    · exact Or.inr (Or.inr (Or.inl ⟨e, by simp [hh]⟩))
  | true :: ws =>
    rcases hloop with ⟨b, e, hh, hp, hb⟩ | ⟨b, e, hh, hp, hb⟩ | ⟨e, hh⟩
    · exact Or.inl ⟨b, e, by simp [hh], hp, hb⟩
    · exact Or.inr (Or.inl ⟨b, e, by simp [hh], hp, hb⟩)
    · exact Or.inr (Or.inr (Or.inl ⟨e, by simp [hh]⟩))
  | false :: ws =>
    exact Or.inr (Or.inr (Or.inr (by simp)))

/-- A connection acknowledging a `Z` (zero) command with one read that uses
the whole five-second budget. -/
def connAck : Conn := ⟨[true], [⟨5000000000, some "Z A".toList⟩]⟩

/-- Witness for C5: the trichotomy instantiated at a concrete connection,
with both hypotheses discharged by evaluation. -/
theorem dc_terminates_witness :
    (∃ b e, (directCommand connAck "Z" (patLit "Z A".toList) "Z A").out = .ok b e
      ∧ patLit "Z A".toList b = true ∧ e < timeoutNs + 5000000000)
    ∨ (∃ b e, (directCommand connAck "Z" (patLit "Z A".toList) "Z A").out
        = .timedOut "Z" "Z A" b e
      ∧ patLit "Z A".toList b = false ∧ e < timeoutNs + 5000000000)
    ∨ (∃ e, (directCommand connAck "Z" (patLit "Z A".toList) "Z A").out = .readErr e)
    ∨ (directCommand connAck "Z" (patLit "Z A".toList) "Z A").out = .writeErr :=
  dc_terminates connAck "Z" "Z A" (patLit "Z A".toList) 5000000000
    (by decide) (by decide)

/-!
Claim C9: `Weight` and `Tare` extraction safety.
-/
theorem dropLit_length : ∀ (lit s r : List Char), dropLit lit s = some r →
    r.length ≤ s.length
  | [], s, r => by
    intro h
    cases h
    exact Nat.le_refl _
  | a :: as, [], r => by
    intro h
    simp [dropLit] at h
  | a :: as, b :: bs, r => by
    intro h
    simp only [dropLit] at h
    split at h
    · exact Nat.le_trans (dropLit_length as bs r h) (by simp)
    · cases h

theorem spanCh_append (p : Char → Bool) : ∀ s : List Char,
    (spanCh p s).1 ++ (spanCh p s).2 = s
  | [] => rfl
  | c :: t => by
    simp only [spanCh]
    split
    · simpa using spanCh_append p t
    · rfl

theorem spanCh_sat (p : Char → Bool) : ∀ (s : List Char), ∀ c ∈ (spanCh p s).1, p c = true
  | [] => by intro c hc; cases hc
  | c :: t => by
    intro d hd
    simp only [spanCh] at hd
    split at hd
    · rcases List.mem_cons.1 (by simpa using hd) with h | h
      · subst h; assumption
      · exact spanCh_sat p t d h
    · cases hd

theorem spanCh_all_sat (p : Char → Bool) : ∀ (a : List Char), (∀ c ∈ a, p c = true) →
    spanCh p a = (a, [])
  | [] => by intro; rfl
  | c :: t => by
    intro h
    simp only [spanCh, h c (by simp), if_true, spanCh_all_sat p t (fun d hd => h d (by simp [hd]))]

theorem spanCh_sat_stop (p : Char → Bool) : ∀ (a : List Char) (x : Char) (b : List Char),
    (∀ c ∈ a, p c = true) → p x = false →
    spanCh p (a ++ x :: b) = (a, x :: b)
  | [], x, b => by
    intro ha hx
    simp [spanCh, hx]
  | c :: t, x, b => by
    intro ha hx
    have ih := spanCh_sat_stop p t x b (fun d hd => ha d (by simp [hd])) hx
    simp only [List.cons_append, spanCh, ha c (by simp), if_true, List.append_eq]
    rw [ih]

theorem negSplit_spec (s : List Char) :
    ((negSplit s).1 = [] ∨ (negSplit s).1 = ['-']) ∧ (negSplit s).1 ++ (negSplit s).2 = s := by
  unfold negSplit
  split
  · exact ⟨Or.inr rfl, rfl⟩
  · exact ⟨Or.inl rfl, rfl⟩

theorem negSplit_minus (t : List Char) : negSplit ('-' :: t) = (['-'], t) := rfl

theorem negSplit_other (c : Char) (t : List Char) (hc : ¬ c = '-') :
    negSplit (c :: t) = ([], c :: t) := by
  unfold negSplit
  split
  · rename_i t' heq
    cases heq
    exact absurd rfl hc
  · rfl

theorem matchFrameAt_shape (pre s v u : List Char) (h : matchFrameAt pre s = some (v, u)) :
    ∃ neg d1 d2, v = neg ++ d1 ++ '.' :: d2
      ∧ (neg = [] ∨ neg = ['-']) ∧ d1 ≠ [] ∧ d2 ≠ []
      ∧ (∀ c ∈ d1, Char.isDigit c = true) ∧ (∀ c ∈ d2, Char.isDigit c = true)
      ∧ d1.length ≤ s.length ∧ d2.length ≤ s.length := by
  unfold matchFrameAt at h
  split at h
  · cases h
  · rename_i s1 h1
    split at h
    rename_i sp s2 h2
    split at h
    · cases h
    · rename_i hsp
      split at h
      rename_i neg s3 h3
      split at h
      rename_i d1 s4 h4
      split at h
      · cases h
      · rename_i hd1
        split at h
        · rename_i s5
          split at h
          rename_i d2 s6 h5
          split at h
          · cases h
          · rename_i hd2
            split at h
            · rename_i s7
              split at h
              rename_i u1 s8 h6
              split at h
              · cases h
              · rename_i hu1
                injection h with h
                injection h with hv hu
                subst hv
                subst hu
                have hneg := negSplit_spec s2
                rw [h3] at hneg
                have hsat1 := spanCh_sat Char.isDigit s3
                rw [h4] at hsat1
                have hsat2 := spanCh_sat Char.isDigit s5
                rw [h5] at hsat2
                have l1 := dropLit_length pre s s1 h1
                have l2 := congrArg List.length (spanCh_append (fun c => c = ' ') s1)
                rw [h2] at l2
                simp only [List.length_append] at l2
                have l3 := congrArg List.length hneg.2
                simp only [List.length_append] at l3
                have l4 := congrArg List.length (spanCh_append Char.isDigit s3)
                rw [h4] at l4
                simp only [List.length_append, List.length_cons] at l4
                have l5 := congrArg List.length (spanCh_append Char.isDigit s5)
                rw [h5] at l5
                simp only [List.length_append, List.length_cons] at l5
                exact ⟨neg, d1, d2, rfl, hneg.1, hd1, hd2, hsat1, hsat2,
                  by omega, by omega⟩
            · cases h
        · cases h

theorem findFrame_shape : ∀ (pre s v u : List Char), findFrame pre s = some (v, u) →
    ∃ neg d1 d2, v = neg ++ d1 ++ '.' :: d2
      ∧ (neg = [] ∨ neg = ['-']) ∧ d1 ≠ [] ∧ d2 ≠ []
      ∧ (∀ c ∈ d1, Char.isDigit c = true) ∧ (∀ c ∈ d2, Char.isDigit c = true)
      ∧ d1.length ≤ s.length ∧ d2.length ≤ s.length
  | pre, [], v, u => by
    intro h
    simp only [findFrame] at h
    exact matchFrameAt_shape pre [] v u h
  | pre, c :: t, v, u => by
    intro h
    simp only [findFrame] at h
    split at h
    · rename_i r hr
      cases h
      exact matchFrameAt_shape pre (c :: t) v u hr
    · obtain ⟨neg, d1, d2, hv, hneg, hd1, hd2, ha1, ha2, hl1, hl2⟩ :=
        findFrame_shape pre t v u h
      exact ⟨neg, d1, d2, hv, hneg, hd1, hd2, ha1, ha2,
        by simp only [List.length_cons]; omega, by simp only [List.length_cons]; omega⟩

theorem digitChar_val_le (c : Char) (h : Char.isDigit c = true) : c.toNat - 48 ≤ 9 := by
  simp only [Char.isDigit, Bool.and_eq_true, decide_eq_true_eq, ge_iff_le] at h
  obtain ⟨h1, h2⟩ := h
  have h2' : c.val.toNat ≤ 57 := UInt32.toNat_le_of_le (by decide) h2
  simp only [Char.toNat]
  omega

theorem digitsVal_lt : ∀ d : List Char, (∀ c ∈ d, Char.isDigit c = true) →
    digitsVal d < 10 ^ d.length
  | [] => by
    intro
    simp [digitsVal]
  | c :: t => by
    intro h
    have h9 := digitChar_val_le c (h c (by simp))
    have ih := digitsVal_lt t (fun d hd => h d (by simp [hd]))
    simp only [digitsVal, List.length_cons]
    have hp : (c.toNat - 48) * 10 ^ t.length ≤ 9 * 10 ^ t.length :=
      Nat.mul_le_mul_right _ h9
    have hpow : 10 ^ (t.length + 1) = 10 * 10 ^ t.length := by ring
    omega

theorem parseFloat64_of_shape (neg d1 d2 : List Char)
    (hneg : neg = [] ∨ neg = ['-']) (hd1 : d1 ≠ []) (hd2 : d2 ≠ [])
    (ha1 : ∀ c ∈ d1, Char.isDigit c = true) (ha2 : ∀ c ∈ d2, Char.isDigit c = true)
    (hlen : d1.length ≤ 308) :
    ∃ w, parseFloat64 (neg ++ d1 ++ '.' :: d2) = some w := by
  have hspan1 : spanCh Char.isDigit (d1 ++ '.' :: d2) = (d1, '.' :: d2) :=
    spanCh_sat_stop Char.isDigit d1 '.' d2 ha1 (by decide)
  have hspan2 : spanCh Char.isDigit d2 = (d2, []) := spanCh_all_sat Char.isDigit d2 ha2
  have hov : ¬ (ovfBound * 10 ^ d2.length ≤ digitsVal d1 * 10 ^ d2.length + digitsVal d2) := by
    have hB : digitsVal d1 < 10 ^ 308 :=
      Nat.lt_of_lt_of_le (digitsVal_lt d1 ha1) (Nat.pow_le_pow_right (by omega) hlen)
    have hP : digitsVal d2 < 10 ^ d2.length := digitsVal_lt d2 ha2
    have hOB : 10 ^ 308 + 1 ≤ ovfBound := by decide
    have m1 : digitsVal d1 * 10 ^ d2.length ≤ (10 ^ 308 - 1) * 10 ^ d2.length :=
      Nat.mul_le_mul_right _ (by omega)
    have m2 : (10 ^ 308 - 1) * 10 ^ d2.length + 10 ^ d2.length
        = 10 ^ 308 * 10 ^ d2.length := by
      have hpos : 10 ^ 308 - 1 + 1 = 10 ^ 308 := by
        have : (0 : Nat) < 10 ^ 308 := Nat.pos_pow_of_pos _ (by omega)
        omega
      calc (10 ^ 308 - 1) * 10 ^ d2.length + 10 ^ d2.length
          = (10 ^ 308 - 1 + 1) * 10 ^ d2.length := by ring
        _ = 10 ^ 308 * 10 ^ d2.length := by rw [hpos]
    have m3 : (10 ^ 308 + 1) * 10 ^ d2.length ≤ ovfBound * 10 ^ d2.length :=
      Nat.mul_le_mul_right _ hOB
    have m4 : (10 ^ 308 + 1) * 10 ^ d2.length
        = 10 ^ 308 * 10 ^ d2.length + 10 ^ d2.length := by ring
    omega
  have main : ∀ s1, negSplit (neg ++ d1 ++ '.' :: d2) = (neg, s1) →
      s1 = d1 ++ '.' :: d2 → ∃ w, parseFloat64 (neg ++ d1 ++ '.' :: d2) = some w := by
    intro s1 hns hs1
    subst hs1
    refine ⟨⟨!neg.isEmpty, digitsVal d1, digitsVal d2, d2.length⟩, ?_⟩
    simp only [parseFloat64, hns, hspan1, if_neg hd1, hspan2, if_neg hd2]
    simp [if_neg hov]
  rcases hneg with hn | hn
  · subst hn
    simp only [List.nil_append] at *
    obtain ⟨c, d1t, rfl⟩ : ∃ c d1t, d1 = c :: d1t := by
      cases d1 with
      | nil => exact absurd rfl hd1
      | cons c t => exact ⟨c, t, rfl⟩
    have hcd : Char.isDigit c = true := ha1 c (by simp)
    have hcne : ¬ c = '-' := by
      intro hc
      subst hc
      simp [Char.isDigit] at hcd
    exact main (c :: d1t ++ '.' :: d2)
      (by rw [show ((c :: d1t) ++ '.' :: d2 : List Char) = c :: (d1t ++ '.' :: d2) by simp,
        negSplit_other c (d1t ++ '.' :: d2) hcne]) (by simp)
  · subst hn
    exact main (d1 ++ '.' :: d2)
      (by rw [show ((['-'] ++ d1 ++ '.' :: d2 : List Char)) = '-' :: (d1 ++ '.' :: d2) by simp,
        negSplit_minus]) rfl

theorem dc_frame_extract (conn : Conn) (cmd ps : String) (pre : List Char)
    (buf : List Char) (e : Nat)
    (hout : (directCommand conn cmd (fun b => (findFrame pre b).isSome) ps).out = .ok buf e) :
    ∃ v u w, findFrame pre buf = some (v, u) ∧ parseFloat64 v = some w := by
  obtain ⟨hpat, hlen⟩ := directCommand_ok_pat conn cmd _ ps buf e hout
  rw [Option.isSome_iff_exists] at hpat
  obtain ⟨⟨v, u⟩, hvu⟩ := hpat
  obtain ⟨neg, d1, d2, hv, hneg, hd1, hd2, ha1, ha2, hl1, hl2⟩ :=
    findFrame_shape pre buf v u hvu
  obtain ⟨w, hw⟩ := parseFloat64_of_shape neg d1 d2 hneg hd1 hd2 ha1 ha2 (by omega)
  rw [← hv] at hw
  exact ⟨v, u, w, hvu, hw⟩

/-- C9: confirmed.  For `Weight` and `Tare`, success of the underlying
`DirectCommand` implies the returned 128-byte buffer matches the frame
regex, so the submatch extraction yields its captures (no out-of-range
indexing of the submatch slice) and the numeric conversion of the value
capture always succeeds: the capture is a signed decimal literal of at most
128 digits, far below the binary64 overflow threshold, so the `ParseFloat`
error branch is unreachable.  Neither the panic nor the parse-error outcome
can occur, for any connection. -/
theorem weight_tare_safe (conn : Conn) :
    (weightOp conn).out.bad = false ∧ (tareOp conn).out.bad = false := by
  constructor
  · unfold weightOp
    dsimp only
    rcases hout : (directCommand conn "S" (fun b => (findFrame "S S".toList b).isSome)
        "S S +(-?[0-9]+\\.[0-9]+) ([a-zA-Z]+)").out with ⟨buf, e⟩ | ⟨c, p, b, e⟩ | e | _ | _
    · obtain ⟨v, u, w, hvu, hw⟩ := dc_frame_extract conn "S"
        "S S +(-?[0-9]+\\.[0-9]+) ([a-zA-Z]+)" "S S".toList buf e hout
      have hvu2 : findFrame ['S', ' ', 'S'] buf = some (v, u) := hvu
      simp [hvu2, hw, MeasOut.bad]
    all_goals rfl
  · unfold tareOp
    dsimp only
    rcases hout : (directCommand conn "T" (fun b => (findFrame "T S".toList b).isSome)
        "T S +(-?[0-9]+\\.[0-9]+) ([a-zA-Z]+)").out with ⟨buf, e⟩ | ⟨c, p, b, e⟩ | e | _ | _
    · obtain ⟨v, u, w, hvu, hw⟩ := dc_frame_extract conn "T"
        "T S +(-?[0-9]+\\.[0-9]+) ([a-zA-Z]+)" "T S".toList buf e hout
      have hvu2 : findFrame ['T', ' ', 'S'] buf = some (v, u) := hvu
      simp [hvu2, hw, MeasOut.bad]
    all_goals rfl

/-!
Claim C7: the streaming loop collects exactly the target count.
-/

/-- A read chunk that matches nothing. -/
def junkChunk : List Char := "xxxxx".toList
/-- A well-formed continuous-mode measurement frame. -/
def frameChunk : List Char := "ST 12.34 g".toList
/-- A one-nanosecond read delivering the junk chunk. -/
def junkEv : ReadEv := ⟨1, some junkChunk⟩
/-- A one-nanosecond read delivering a measurement frame. -/
def frameEv : ReadEv := ⟨1, some frameChunk⟩
/-- A read failing with an I/O error. -/
def errEv : ReadEv := ⟨1, none⟩
/-- The 128-byte buffer after a junk read over a zero tail. -/
def junkBuf : List Char := junkChunk ++ List.replicate 123 nulChar
/-- The 128-byte buffer after a frame read over a zero tail. -/
def frameBuf : List Char := frameChunk ++ List.replicate 118 nulChar
/-- The measurement parsed from `frameChunk`: 12.34 g. -/
def mFrame : Measurement := ⟨⟨false, 12, 34, 2⟩, "g"⟩

/-- A streaming scenario: the device acknowledges `ST 1`, then delivers `j`
junk reads, then `n` measurement frames, and would fail the next read; all
writes succeed. -/
def conn7 (n j : Nat) : Conn :=
  ⟨[true, true],
   ⟨1, some "ST A".toList⟩ ::
     (List.replicate j junkEv ++ List.replicate n frameEv ++ [errEv])⟩

theorem wokLoop_stop (num T : Int) (reads : List ReadEv) (buf : List Char)
    (e i : Nat) (acc : List Measurement)
    (h : ¬ ((i : Int) < num ∧ (e : Int) < T)) :
    wokLoop num T reads buf e i acc = (.ret acc none, reads) := by
  cases reads <;> simp [wokLoop, h]

theorem wok_junk_phase (num T : Int) :
    ∀ (j : Nat) (rest : List ReadEv) (buf : List Char) (e i : Nat) (acc : List Measurement),
      writeInto buf junkChunk = junkBuf → writeInto buf frameChunk = frameBuf →
      (i : Int) < num → (e : Int) + (j : Int) ≤ T →
      ∃ buf2, writeInto buf2 junkChunk = junkBuf ∧ writeInto buf2 frameChunk = frameBuf ∧
        wokLoop num T (List.replicate j junkEv ++ rest) buf e i acc
          = wokLoop num T rest buf2 (e + j) i acc
  | 0, rest, buf, e, i, acc => by
    intro hj hf hi he
    exact ⟨buf, hj, hf, by simp⟩
  | j + 1, rest, buf, e, i, acc => by
    intro hj hf hi he
    have hcond : (i : Int) < num ∧ (e : Int) < T := by
      constructor
      · exact hi
      · push_cast at he ⊢
        omega
    have hnf : findFrame "ST".toList junkBuf = none := by decide
    have hjj : writeInto junkBuf junkChunk = junkBuf := by decide
    have hjf : writeInto junkBuf frameChunk = frameBuf := by decide
    obtain ⟨buf2, h1, h2, h3⟩ := wok_junk_phase num T j rest junkBuf (e + 1) i acc hjj hjf hi
      (by push_cast at he ⊢; omega)
    refine ⟨buf2, h1, h2, ?_⟩
    rw [List.replicate_succ, List.cons_append]
    simp only [wokLoop, if_pos hcond, junkEv, hj, hnf]
    simp only [junkEv] at h3
    rw [h3]
    congr 1
    omega

theorem wok_frame_phase (num T : Int) :
    ∀ (k : Nat) (rest : List ReadEv) (buf : List Char) (e i : Nat) (acc : List Measurement),
      writeInto buf frameChunk = frameBuf →
      (i : Int) + (k : Int) = num → (e : Int) + (k : Int) ≤ T →
      wokLoop num T (List.replicate k frameEv ++ rest) buf e i acc
        = (.ret (acc ++ List.replicate k mFrame) none, rest)
  | 0, rest, buf, e, i, acc => by
    intro hf hik he
    rw [List.replicate_zero, List.nil_append, wokLoop_stop]
    · simp
    · push_cast at hik
      omega
  | k + 1, rest, buf, e, i, acc => by
    intro hf hik he
    have hcond : (i : Int) < num ∧ (e : Int) < T := by
      push_cast at hik he ⊢
      omega
    have hff : findFrame "ST".toList frameBuf = some ("12.34".toList, "g".toList) := by
      decide
    have hpf : parseFloat64 "12.34".toList = some ⟨false, 12, 34, 2⟩ := by decide
    have hff2 : writeInto frameBuf frameChunk = frameBuf := by decide
    have ih := wok_frame_phase num T k rest frameBuf (e + 1) (i + 1) (acc ++ [mFrame]) hff2
      (by push_cast at hik ⊢; omega) (by push_cast at he ⊢; omega)
    rw [List.replicate_succ, List.cons_append]
    simp only [wokLoop, if_pos hcond, frameEv, hf, hff, hpf]
    simp only [frameEv] at ih
    rw [show (⟨⟨false, 12, 34, 2⟩, String.mk "g".toList⟩ : Measurement) = mFrame from rfl]
    rw [ih]
    simp [List.replicate_succ, mFrame]

theorem dc_st1_eval (tail : List ReadEv) :
    directCommand ⟨[true, true], ⟨1, some "ST A".toList⟩ :: tail⟩ "ST 1"
      (patLit "ST A".toList) "ST A"
    = ⟨.ok (writeInto bufZero "ST A".toList) 1, ⟨[true], tail⟩, ["ST 1\r\n"]⟩ := by
  have hp : patLit ['S', 'T', ' ', 'A'] (writeInto bufZero ['S', 'T', ' ', 'A']) = true := by
    decide
  simp [directCommand, dcLoop, hp, timeoutNs]

/-- C7: confirmed.  For every finite target count `n > 0` and the unbounded
(zero) timeout, `WeightOnKey` against a transport that delivers junk reads
and then more matching frames than needed collects exactly `n`
measurements — junk reads do not increment the count — exits the loop as
soon as the count reaches `n` (the subsequent read events are left for the
stop command: the trailing read error is consumed by `ST 0`, whose failure
is discarded), and then issues the stop command, so the write log is
exactly `ST 1` followed by `ST 0`. -/
theorem wok_collects_target (n j : Nat) (hn : 0 < n)
    (hb : (n : Int) + (j : Int) < maxInt64) :
    weightOnKey (conn7 n j) (n : Int) 0 =
      ⟨.ret (List.replicate n mFrame) none, ⟨[], []⟩, ["ST 1\r\n", "ST 0\r\n"]⟩ := by
  have hb' : (n : Int) + (j : Int) < 2 ^ 63 - 1 := by
    simpa [maxInt64] using hb
  have hcond : ¬ ((0 : Int) = 0 ∧ (n : Int) = 0) := by
    push_cast
    omega
  have hT : effTimeout 0 = maxInt64 := rfl
  have hN : effNum (n : Int) = (n : Int) := if_neg (by omega)
  have hle1 : ((0 : Nat) : Int) + (j : Int) ≤ maxInt64 := by
    simp only [maxInt64]
    push_cast
    omega
  have hle2 : ((0 + j : Nat) : Int) + (n : Int) ≤ maxInt64 := by
    simp only [maxInt64]
    push_cast
    omega
  have hi0 : ((0 : Nat) : Int) < (n : Int) := by
    push_cast
    omega
  have hik : ((0 : Nat) : Int) + (n : Int) = (n : Int) := by
    push_cast
    omega
  unfold weightOnKey
  rw [if_neg hcond]
  dsimp only
  rw [show (conn7 n j : Conn) = ⟨[true, true], ⟨1, some "ST A".toList⟩ ::
      (List.replicate j junkEv ++ List.replicate n frameEv ++ [errEv])⟩ from rfl]
  rw [dc_st1_eval]
  dsimp only
  rw [hT, hN]
  obtain ⟨buf2, hb1, hb2, hjunk⟩ := wok_junk_phase (n : Int) maxInt64 j
    (List.replicate n frameEv ++ [errEv]) bufZero 0 0 []
    (by decide) (by decide) hi0 hle1
  rw [← List.append_assoc] at hjunk
  rw [hjunk]
  rw [wok_frame_phase (n : Int) maxInt64 n [errEv] buf2 (0 + j) 0 [] hb2 hik hle2]
  dsimp only
  have hstop : directCommand ⟨[true], [errEv]⟩ "ST 0"
      (patLitClass "ST ".toList ['A', 'L']) "ST [AL]"
    = ⟨.readErr 0, ⟨[], []⟩, ["ST 0\r\n"]⟩ := by decide
  rw [hstop]
  simp

/-- Witness for C7: the theorem at target count 3 with one junk read, both
hypotheses discharged by evaluation — exactly three measurements of
12.34 g are collected and the stop command is issued. -/
theorem wok_collects_target_witness :
    weightOnKey (conn7 3 1) (3 : Int) 0 =
      ⟨.ret (List.replicate 3 mFrame) none, ⟨[], []⟩, ["ST 1\r\n", "ST 0\r\n"]⟩ :=
  wok_collects_target 3 1 (by decide) (by decide)
